import Mathlib

/-!
Verification development for the `Tokenizer` repository
(src/Tokenizer/src/exp_parser.rs): a recursive-descent evaluator for
integer arithmetic with variables, string literals, operator precedence
and a strict operator-position discipline.

The Rust code is embedded as pure state-passing functions over an explicit
parser state.  Rust `i32` arithmetic is modelled as `Int` with every
arithmetic result wrapped into the twos-complement 32-bit range
(`wrap32`), the wrapping semantics of released Rust binaries.  The mutually
recursive grammar levels take an explicit fuel argument; a theorem below
shows fuel linear in the input length is always sufficient, so the fuel is
an artifact of the embedding, not of the program.
-/

namespace Tokenizer

/-- Values produced by the evaluator: `Value::Int(i32)` or `Value::Str(String)`
(src/exp_parser.rs lines 3-6).  Integers are carried as unbounded `Int`;
every arithmetic step the parser performs wraps its result into the `i32`
range, so parser-produced integers always lie in that range. -/
inductive Value where
  | int : Int → Value
  | str : String → Value
deriving DecidableEq

/-- One constructor per distinct `Err(...)` site of src/exp_parser.rs, in
source order; the `String` payloads carry the variable name interpolated by
`format!` in `parse_identifier`. -/
inductive PError where
  | trailingChars
  | consecutivePlus
  | consecutiveMinus
  | consecutiveTimes
  | missingCloseParen
  | multipleUnaryMinus
  | multipleUnaryPlus
  | invalidToken
  | leadingZero
  | invalidNumberFormat
  | unterminatedString
  | stringVarInArith : String → PError
  | varNotDefined : String → PError
deriving DecidableEq

/-- The error taxonomy of spec section 7, one name per kind. -/
inductive ErrKind where
  | TrailingInput
  | ConsecutiveOperator
  | RepeatedUnaryOperator
  | UnmatchedParenthesis
  | InvalidToken
  | UnterminatedString
  | LeadingZero
  | NumberOverflow
  | UndefinedVariable
  | TypeMismatch
deriving DecidableEq

/-- Modelled from the spec: section 7 pairs each taxonomy kind with a
description that identifies the corresponding `Err` site of
src/exp_parser.rs (e.g. `NumberOverflow` is "integer literal outside the
32-bit signed range", produced by the generic `Invalid number format`
message, as section 9 notes).  This maps each concrete error of the code to
its spec kind. -/
def PError.kind : PError → ErrKind
  | .trailingChars => .TrailingInput
  | .consecutivePlus => .ConsecutiveOperator
  | .consecutiveMinus => .ConsecutiveOperator
  | .consecutiveTimes => .ConsecutiveOperator
  | .missingCloseParen => .UnmatchedParenthesis
  | .multipleUnaryMinus => .RepeatedUnaryOperator
  | .multipleUnaryPlus => .RepeatedUnaryOperator
  | .invalidToken => .InvalidToken
  | .leadingZero => .LeadingZero
  | .invalidNumberFormat => .NumberOverflow
  | .unterminatedString => .UnterminatedString
  | .stringVarInArith _ => .TypeMismatch
  | .varNotDefined _ => .UndefinedVariable

/-- Parser state: the `ExprParser` struct of src/exp_parser.rs lines 8-13
minus the borrowed `varMap` map, which is passed to each function as a
separate read-only argument. -/
structure ExprParser where
  input : List Char
  pos : Nat
  lastTokenWasOperator : Bool
deriving DecidableEq

/-- Rust `char::is_ascii_digit`: `'0'..='9'` (code points 48-57). -/
def is_ascii_digit (c : Char) : Bool :=
  decide (48 ≤ c.toNat ∧ c.toNat ≤ 57)

/-- Rust `char::is_ascii_alphabetic`: `'A'..='Z'` or `'a'..='z'`. -/
def is_ascii_alphabetic (c : Char) : Bool :=
  decide ((65 ≤ c.toNat ∧ c.toNat ≤ 90) ∨ (97 ≤ c.toNat ∧ c.toNat ≤ 122))

/-- Rust `char::is_ascii_alphanumeric`. -/
def is_ascii_alphanumeric (c : Char) : Bool :=
  is_ascii_digit c || is_ascii_alphabetic c

/-- Rust `char::is_whitespace`: the Unicode `White_Space` property
(the 25 code points with that property). -/
def rust_is_whitespace (c : Char) : Bool :=
  decide (c.toNat = 0x09 ∨ c.toNat = 0x0A ∨ c.toNat = 0x0B ∨ c.toNat = 0x0C ∨
    c.toNat = 0x0D ∨ c.toNat = 0x20 ∨ c.toNat = 0x85 ∨ c.toNat = 0xA0 ∨
    c.toNat = 0x1680 ∨ (0x2000 ≤ c.toNat ∧ c.toNat ≤ 0x200A) ∨
    c.toNat = 0x2028 ∨ c.toNat = 0x2029 ∨ c.toNat = 0x202F ∨
    c.toNat = 0x205F ∨ c.toNat = 0x3000)

/-- Twos-complement wrap of an integer into the `i32` range, the behaviour
of Rust `i32` `+`, `-`, `*` and unary negation in release builds. -/
def wrap32 (n : Int) : Int :=
  (n + 2147483648) % 4294967296 - 2147483648

/-- Decimal value of a digit string, as computed by `str::parse::<i32>` on a
string of ASCII digits (before its range check). -/
def digitsToNat (ds : List Char) : Nat :=
  ds.foldl (fun acc c => acc * 10 + (c.toNat - 48)) 0

/-- `ExprParser::peek` (src/exp_parser.rs lines 183-185). -/
def peek (s : ExprParser) : Option Char :=
  s.input.get? s.pos

/-- `ExprParser::next` (src/exp_parser.rs lines 187-191): returns the peeked
character and advances `pos` by one exactly when a character was present
(`self.pos += ch.is_some() as usize`). -/
def next (s : ExprParser) : Option Char × ExprParser :=
  (peek s, { s with pos := s.pos + (if (peek s).isSome then 1 else 0) })

/-- `ExprParser::skip_whitespace` (src/exp_parser.rs lines 193-197): the
`while peek is whitespace do next` loop advances `pos` past exactly the
leading whitespace run of the remaining input. -/
def skip_whitespace (s : ExprParser) : ExprParser :=
  { s with pos := s.pos + ((s.input.drop s.pos).takeWhile rust_is_whitespace).length }

/-- Result of a parsing routine: `Ok(value)` with the updated parser state,
`Err(message)`, or fuel exhaustion (an artifact of the embedding, proven
unreachable for fuel linear in the input length). -/
inductive PRes (α : Type) where
  | ok : α → ExprParser → PRes α
  | err : PError → PRes α
  | fuelOut : PRes α
deriving DecidableEq

/-- `ExprParser::parse_integer_literal` (src/exp_parser.rs lines 136-148):
the digit-consuming loop takes the leading digit run; a multi-digit run
starting with `0` is a leading-zero error; `str::parse::<i32>` fails (with
the generic `Invalid number format` message) on an empty string or a value
exceeding `i32::MAX` (the run is unsigned, so only positive overflow can
occur). -/
def parse_integer_literal (s : ExprParser) : PRes Int :=
  let number := (s.input.drop s.pos).takeWhile is_ascii_digit
  if number.length > 1 ∧ number.head? = some '0' then
    PRes.err PError.leadingZero
  else if number.length = 0 ∨ 2147483647 < digitsToNat number then
    PRes.err PError.invalidNumberFormat
  else
    PRes.ok (Int.ofNat (digitsToNat number)) { s with pos := s.pos + number.length }

/-- `ExprParser::parse_string_literal` (src/exp_parser.rs lines 150-162):
consume the opening quote, then characters verbatim up to the closing
quote; reaching end of input first is an unterminated-string error. -/
def parse_string_literal (s : ExprParser) : PRes Value :=
  let s1 := (next s).2
  let content := (s1.input.drop s1.pos).takeWhile (fun c => c != '"')
  let s2 := { s1 with pos := s1.pos + content.length }
  if (peek s2).isSome then
    PRes.ok (Value.str (String.mk content)) (next s2).2
  else
    PRes.err PError.unterminatedString

/-- `ExprParser::parse_identifier` (src/exp_parser.rs lines 164-181): the
consuming loop takes the leading run of alphanumeric/underscore characters,
then the name is looked up in the variable map. -/
def parse_identifier (varMap : String → Option Value) (s : ExprParser) : PRes Int :=
  let chars := (s.input.drop s.pos).takeWhile (fun c => is_ascii_alphanumeric c || c == '_')
  let name := String.mk chars
  let s1 := { s with pos := s.pos + chars.length }
  match varMap name with
  | some (Value.int n) => PRes.ok n s1
  | some (Value.str _) => PRes.err (PError.stringVarInArith name)
  | none => PRes.err (PError.varNotDefined name)

mutual

/-- `ExprParser::parse_expression` (src/exp_parser.rs lines 41-71): parse a
term, then the `+`/`-` loop (modelled as `parse_expression_loop`). -/
def parse_expression (varMap : String → Option Value) : Nat → ExprParser → PRes Int
  | 0, _ => PRes.fuelOut
  | fuel + 1, s =>
    match parse_term varMap fuel s with
    | PRes.ok value s1 => parse_expression_loop varMap fuel value s1
    | PRes.err e => PRes.err e
    | PRes.fuelOut => PRes.fuelOut

/-- The `loop` of `ExprParser::parse_expression` (src/exp_parser.rs lines
43-69): skip whitespace; on `+`/`-`, fail if `last_token_was_operator` is
set, else consume the operator, set the flag, parse a term, fold it into
the running value, clear the flag, and continue; on anything else stop. -/
def parse_expression_loop (varMap : String → Option Value) : Nat → Int → ExprParser → PRes Int
  | 0, _, _ => PRes.fuelOut
  | fuel + 1, value, s =>
    let s1 := skip_whitespace s
    match peek s1 with
    | some c =>
      if c == '+' then
        if s1.lastTokenWasOperator then PRes.err PError.consecutivePlus
        else
          match parse_term varMap fuel { (next s1).2 with lastTokenWasOperator := true } with
          | PRes.ok t s2 =>
            parse_expression_loop varMap fuel (wrap32 (value + t))
              { s2 with lastTokenWasOperator := false }
          | PRes.err e => PRes.err e
          | PRes.fuelOut => PRes.fuelOut
      else if c == '-' then
        if s1.lastTokenWasOperator then PRes.err PError.consecutiveMinus
        else
          match parse_term varMap fuel { (next s1).2 with lastTokenWasOperator := true } with
          | PRes.ok t s2 =>
            parse_expression_loop varMap fuel (wrap32 (value - t))
              { s2 with lastTokenWasOperator := false }
          | PRes.err e => PRes.err e
          | PRes.fuelOut => PRes.fuelOut
      else PRes.ok value s1
    | none => PRes.ok value s1

/-- `ExprParser::parse_term` (src/exp_parser.rs lines 73-94): parse a
factor, then the `*` loop (modelled as `parse_term_loop`). -/
def parse_term (varMap : String → Option Value) : Nat → ExprParser → PRes Int
  | 0, _ => PRes.fuelOut
  | fuel + 1, s =>
    match parse_factor varMap fuel s with
    | PRes.ok value s1 => parse_term_loop varMap fuel value s1
    | PRes.err e => PRes.err e
    | PRes.fuelOut => PRes.fuelOut

/-- The `loop` of `ExprParser::parse_term` (src/exp_parser.rs lines 75-92),
analogous to the expression loop but for `*` only. -/
def parse_term_loop (varMap : String → Option Value) : Nat → Int → ExprParser → PRes Int
  | 0, _, _ => PRes.fuelOut
  | fuel + 1, value, s =>
    let s1 := skip_whitespace s
    match peek s1 with
    | some c =>
      if c == '*' then
        if s1.lastTokenWasOperator then PRes.err PError.consecutiveTimes
        else
          match parse_factor varMap fuel { (next s1).2 with lastTokenWasOperator := true } with
          | PRes.ok t s2 =>
            parse_term_loop varMap fuel (wrap32 (value * t))
              { s2 with lastTokenWasOperator := false }
          | PRes.err e => PRes.err e
          | PRes.fuelOut => PRes.fuelOut
      else PRes.ok value s1
    | none => PRes.ok value s1

/-- `ExprParser::parse_factor` (src/exp_parser.rs lines 96-134): skip
whitespace and dispatch on the next character, in the match order of the source
order: `(` parses a nested expression and requires `)`; `-`/`+` are unary
signs, rejected when `last_token_was_operator` is already set; a digit
starts an integer literal; a letter or underscore starts an identifier;
anything else (or end of input) is an invalid token.  In the source the
flag is written before the sign character is consumed; `next` does not read
the flag, so the order is preserved verbatim here. -/
def parse_factor (varMap : String → Option Value) : Nat → ExprParser → PRes Int
  | 0, _ => PRes.fuelOut
  | fuel + 1, s =>
    let s1 := skip_whitespace s
    match peek s1 with
    | some c =>
      if c == '(' then
        match parse_expression varMap fuel (next s1).2 with
        | PRes.ok value s2 =>
          let s3 := skip_whitespace s2
          if (next s3).1 = some ')' then PRes.ok value (next s3).2
          else PRes.err PError.missingCloseParen
        | PRes.err e => PRes.err e
        | PRes.fuelOut => PRes.fuelOut
      else if c == '-' then
        if s1.lastTokenWasOperator then PRes.err PError.multipleUnaryMinus
        else
          match parse_factor varMap fuel (next { s1 with lastTokenWasOperator := true }).2 with
          | PRes.ok v s2 => PRes.ok (wrap32 (-v)) s2
          | PRes.err e => PRes.err e
          | PRes.fuelOut => PRes.fuelOut
      else if c == '+' then
        if s1.lastTokenWasOperator then PRes.err PError.multipleUnaryPlus
        else parse_factor varMap fuel (next { s1 with lastTokenWasOperator := true }).2
      else if is_ascii_digit c then
        parse_integer_literal { s1 with lastTokenWasOperator := false }
      else if is_ascii_alphabetic c || c == '_' then
        parse_identifier varMap { s1 with lastTokenWasOperator := false }
      else PRes.err PError.invalidToken
    | none => PRes.err PError.invalidToken

end

/-- `ExprParser::parse` (src/exp_parser.rs lines 25-39): skip leading
whitespace; a leading quote starts a string literal, anything else a full
arithmetic expression; then skip trailing whitespace and require the input
to be exhausted. -/
def parse (varMap : String → Option Value) (fuel : Nat) (s : ExprParser) : PRes Value :=
  let s0 := skip_whitespace s
  let r :=
    if peek s0 = some '"' then parse_string_literal s0
    else
      match parse_expression varMap fuel s0 with
      | PRes.ok n s1 => PRes.ok (Value.int n) s1
      | PRes.err e => PRes.err e
      | PRes.fuelOut => PRes.fuelOut
  match r with
  | PRes.ok v s1 =>
    let s2 := skip_whitespace s1
    if s2.pos < s2.input.length then PRes.err PError.trailingChars
    else PRes.ok v s2
  | other => other

/-- `ExprParser::new` (src/exp_parser.rs lines 16-23): the input characters,
position `0`, and `last_token_was_operator` initialized to `true`. -/
def ExprParser.new (expression : String) : ExprParser :=
  { input := expression.data, pos := 0, lastTokenWasOperator := true }

/-- The public evaluation entry point (spec section 4.2): `ExprParser::new`
followed by `ExprParser::parse`, run with fuel linear in the input length
(`none` marks fuel exhaustion, proven unreachable below). -/
def evaluate (expression : String) (varMap : String → Option Value) :
    Option (Except PError Value) :=
  match parse varMap (5 * expression.data.length + 6) (ExprParser.new expression) with
  | PRes.ok v _ => some (Except.ok v)
  | PRes.err e => some (Except.error e)
  | PRes.fuelOut => none

/-! ### Basic facts about the scanner -/

theorem takeWhile_length_le (p : Char → Bool) (l : List Char) :
    (l.takeWhile p).length ≤ l.length := by
  induction l with
  | nil => simp
  | cons c t ih =>
    rw [List.takeWhile_cons]
    by_cases h : p c = true
    · simp only [h, if_true, List.length_cons]
      omega
    · simp [h]

theorem peek_some_lt {s : ExprParser} {c : Char} (h : peek s = some c) :
    s.pos < s.input.length := by
  rw [peek, List.get?_eq_getElem?] at h
  exact (List.getElem?_eq_some.1 h).1

theorem peek_none_of_le {s : ExprParser} (h : s.input.length ≤ s.pos) : peek s = none := by
  rw [peek]
  exact List.get?_eq_none.2 h

theorem next_pos_of_some {s : ExprParser} {c : Char} (h : peek s = some c) :
    (next s).2.pos = s.pos + 1 := by
  simp [next, h]

/-- The state relation every parsing routine preserves: the input is
unchanged, the position never moves backwards, and positions inside the
input stay inside the input. -/
def Advances (s t : ExprParser) : Prop :=
  t.input = s.input ∧ s.pos ≤ t.pos ∧ (s.pos ≤ s.input.length → t.pos ≤ t.input.length)

theorem Advances.refl (s : ExprParser) : Advances s s :=
  ⟨rfl, Nat.le_refl _, fun h => h⟩

theorem Advances.trans {s t u : ExprParser} (h1 : Advances s t) (h2 : Advances t u) :
    Advances s u := by
  obtain ⟨i1, p1, b1⟩ := h1
  obtain ⟨i2, p2, b2⟩ := h2
  exact ⟨i2.trans i1, p1.trans p2, fun h => b2 (b1 h)⟩

theorem advances_addTakeWhile (s : ExprParser) (p : Char → Bool) :
    Advances s { s with pos := s.pos + ((s.input.drop s.pos).takeWhile p).length } := by
  refine ⟨rfl, Nat.le_add_right _ _, fun h => ?_⟩
  have h1 := takeWhile_length_le p (s.input.drop s.pos)
  have h2 : (s.input.drop s.pos).length = s.input.length - s.pos := List.length_drop _ _
  simp only
  omega

theorem advances_skip_whitespace (s : ExprParser) : Advances s (skip_whitespace s) :=
  advances_addTakeWhile s rust_is_whitespace

theorem advances_next (s : ExprParser) : Advances s (next s).2 := by
  refine ⟨rfl, Nat.le_add_right _ _, fun hle => ?_⟩
  cases h : (peek s).isSome
  · simp [next, h]
    omega
  · obtain ⟨c, hc⟩ := Option.isSome_iff_exists.1 h
    have := peek_some_lt hc
    simp [next, h]
    omega

theorem advances_setFlag (s : ExprParser) (b : Bool) :
    Advances s { s with lastTokenWasOperator := b } :=
  ⟨rfl, Nat.le_refl _, fun h => h⟩

theorem advances_parse_integer_literal {s s' : ExprParser} {n : Int}
    (h : parse_integer_literal s = PRes.ok n s') : Advances s s' := by
  simp only [parse_integer_literal] at h
  split at h
  · cases h
  · split at h
    · cases h
    · cases h
      exact advances_addTakeWhile s is_ascii_digit

theorem advances_parse_identifier {varMap : String → Option Value} {s s' : ExprParser} {n : Int}
    (h : parse_identifier varMap s = PRes.ok n s') : Advances s s' := by
  simp only [parse_identifier] at h
  split at h
  · cases h
    exact advances_addTakeWhile s _
  · cases h
  · cases h

theorem advances_parse_string_literal {s s' : ExprParser} {v : Value}
    (h : parse_string_literal s = PRes.ok v s') : Advances s s' := by
  simp only [parse_string_literal] at h
  split at h
  · cases h
    exact ((advances_next s).trans (advances_addTakeWhile (next s).2 _)).trans
      (advances_next _)
  · cases h

theorem grammar_advances (varMap : String → Option Value) :
    ∀ fuel : Nat,
      (∀ s n s', parse_expression varMap fuel s = PRes.ok n s' → Advances s s') ∧
      (∀ v s n s', parse_expression_loop varMap fuel v s = PRes.ok n s' → Advances s s') ∧
      (∀ s n s', parse_term varMap fuel s = PRes.ok n s' → Advances s s') ∧
      (∀ v s n s', parse_term_loop varMap fuel v s = PRes.ok n s' → Advances s s') ∧
      (∀ s n s', parse_factor varMap fuel s = PRes.ok n s' → Advances s s') := by
  intro fuel
  induction fuel with
  | zero =>
    refine ⟨fun s n s' h => ?_, fun v s n s' h => ?_, fun s n s' h => ?_,
      fun v s n s' h => ?_, fun s n s' h => ?_⟩ <;>
      simp [parse_expression, parse_expression_loop, parse_term, parse_term_loop,
        parse_factor] at h
  | succ fuel ih =>
    obtain ⟨ihE, ihEL, ihT, ihTL, ihF⟩ := ih
    refine ⟨fun s n s' h => ?_, fun v s n s' h => ?_, fun s n s' h => ?_,
      fun v s n s' h => ?_, fun s n s' h => ?_⟩
    · -- parse_expression
      simp only [parse_expression] at h
      split at h
      next value s1 heq => exact (ihT _ _ _ heq).trans (ihEL _ _ _ _ h)
      next e heq => cases h
      next heq => cases h
    · -- parse_expression_loop
      simp only [parse_expression_loop] at h
      split at h
      next c hpk =>
        split at h
        next hplus =>
          split at h
          next hflag => cases h
          next hflag =>
            split at h
            next t s2 heq =>
              exact ((advances_skip_whitespace s).trans
                (((advances_next _).trans (advances_setFlag _ _)).trans
                  ((ihT _ _ _ heq).trans ((advances_setFlag _ _).trans
                    (ihEL _ _ _ _ h)))))
            next e heq => cases h
            next heq => cases h
        next hplus =>
          split at h
          next hminus =>
            split at h
            next hflag => cases h
            next hflag =>
              split at h
              next t s2 heq =>
                exact ((advances_skip_whitespace s).trans
                  (((advances_next _).trans (advances_setFlag _ _)).trans
                    ((ihT _ _ _ heq).trans ((advances_setFlag _ _).trans
                      (ihEL _ _ _ _ h)))))
              next e heq => cases h
              next heq => cases h
          next hminus =>
            cases h
            exact advances_skip_whitespace s
      next hpk =>
        cases h
        exact advances_skip_whitespace s
    · -- parse_term
      simp only [parse_term] at h
      split at h
      next value s1 heq => exact (ihF _ _ _ heq).trans (ihTL _ _ _ _ h)
      next e heq => cases h
      next heq => cases h
    · -- parse_term_loop
      simp only [parse_term_loop] at h
      split at h
      next c hpk =>
        split at h
        next htimes =>
          split at h
          next hflag => cases h
          next hflag =>
            split at h
            next t s2 heq =>
              exact ((advances_skip_whitespace s).trans
                (((advances_next _).trans (advances_setFlag _ _)).trans
                  ((ihF _ _ _ heq).trans ((advances_setFlag _ _).trans
                    (ihTL _ _ _ _ h)))))
            next e heq => cases h
            next heq => cases h
        next htimes =>
          cases h
          exact advances_skip_whitespace s
      next hpk =>
        cases h
        exact advances_skip_whitespace s
    · -- parse_factor
      simp only [parse_factor] at h
      split at h
      next c hpk =>
        split at h
        next hlp =>
          split at h
          next value s2 heq =>
            split at h
            next hrp =>
              cases h
              exact ((advances_skip_whitespace s).trans
                ((advances_next _).trans
                  ((ihE _ _ _ heq).trans
                    ((advances_skip_whitespace s2).trans (advances_next _)))))
            next hrp => cases h
          next e heq => cases h
          next heq => cases h
        next hlp =>
          split at h
          next hminus =>
            split at h
            next hflag => cases h
            next hflag =>
              split at h
              next v2 s2 heq =>
                cases h
                exact ((advances_skip_whitespace s).trans
                  (((advances_setFlag _ _).trans (advances_next _)).trans
                    (ihF _ _ _ heq)))
              next e heq => cases h
              next heq => cases h
          next hminus =>
            split at h
            next hplus =>
              split at h
              next hflag => cases h
              next hflag =>
                exact ((advances_skip_whitespace s).trans
                  (((advances_setFlag _ _).trans (advances_next _)).trans
                    (ihF _ _ _ h)))
            next hplus =>
              split at h
              next hdig =>
                exact ((advances_skip_whitespace s).trans
                  ((advances_setFlag _ _).trans
                    (advances_parse_integer_literal h)))
              next hdig =>
                split at h
                next hal =>
                  exact ((advances_skip_whitespace s).trans
                    ((advances_setFlag _ _).trans
                      (advances_parse_identifier h)))
                next hal => cases h
      next hpk => cases h

theorem Advances.len_eq {s t : ExprParser} (h : Advances s t) :
    t.input.length = s.input.length := by rw [h.1]

theorem next_input (s : ExprParser) : (next s).2.input = s.input := rfl

theorem next_pos (s : ExprParser) :
    (next s).2.pos = s.pos + (if (peek s).isSome then 1 else 0) := rfl

theorem setFlag_input (s : ExprParser) (b : Bool) :
    ({ s with lastTokenWasOperator := b } : ExprParser).input = s.input := rfl

theorem setFlag_pos (s : ExprParser) (b : Bool) :
    ({ s with lastTokenWasOperator := b } : ExprParser).pos = s.pos := rfl

theorem setFlag_peek (s : ExprParser) (b : Bool) :
    peek { s with lastTokenWasOperator := b } = peek s := rfl

theorem grammar_fuel (varMap : String → Option Value) :
    ∀ fuel : Nat,
      (∀ s, 5 * (s.input.length - s.pos) + 5 ≤ fuel →
        parse_expression varMap fuel s ≠ PRes.fuelOut) ∧
      (∀ v s, 5 * (s.input.length - s.pos) + 4 ≤ fuel →
        parse_expression_loop varMap fuel v s ≠ PRes.fuelOut) ∧
      (∀ s, 5 * (s.input.length - s.pos) + 4 ≤ fuel →
        parse_term varMap fuel s ≠ PRes.fuelOut) ∧
      (∀ v s, 5 * (s.input.length - s.pos) + 3 ≤ fuel →
        parse_term_loop varMap fuel v s ≠ PRes.fuelOut) ∧
      (∀ s, 5 * (s.input.length - s.pos) + 1 ≤ fuel →
        parse_factor varMap fuel s ≠ PRes.fuelOut) := by
  intro fuel
  induction fuel with
  | zero =>
    refine ⟨fun s hm => ?_, fun v s hm => ?_, fun s hm => ?_,
      fun v s hm => ?_, fun s hm => ?_⟩ <;> omega
  | succ fuel ih =>
    obtain ⟨ihE, ihEL, ihT, ihTL, ihF⟩ := ih
    refine ⟨fun s hm => ?_, fun v s hm => ?_, fun s hm => ?_,
      fun v s hm => ?_, fun s hm => ?_⟩
    · -- parse_expression
      simp only [parse_expression]
      split
      next value s1 heq =>
        have hal := ((grammar_advances varMap fuel).2.2.1 _ _ _ heq).len_eq
        have hap := ((grammar_advances varMap fuel).2.2.1 _ _ _ heq).2.1
        exact ihEL _ _ (by omega)
      next e heq => simp
      next heq =>
        exact absurd heq (ihT _ (by omega))
    · -- parse_expression_loop
      simp only [parse_expression_loop]
      split
      next c hpk =>
        have hAl := (advances_skip_whitespace s).len_eq
        have hAp := (advances_skip_whitespace s).2.1
        have hlt := peek_some_lt hpk
        split
        · split
          · simp
          · split
            next t s2 heq =>
              have hal := ((grammar_advances varMap fuel).2.2.1 _ _ _ heq).len_eq
              have hap := ((grammar_advances varMap fuel).2.2.1 _ _ _ heq).2.1
              refine ihEL _ _ ?_
              simp only [setFlag_input, setFlag_pos, next_input, next_pos, hpk] at hal hap ⊢
              simp at hap
              omega
            next e heq => simp
            next heq =>
              refine absurd heq (ihT _ ?_)
              simp [setFlag_input, setFlag_pos, next_input, next_pos, hpk]
              omega
        · split
          · split
            · simp
            · split
              next t s2 heq =>
                have hal := ((grammar_advances varMap fuel).2.2.1 _ _ _ heq).len_eq
                have hap := ((grammar_advances varMap fuel).2.2.1 _ _ _ heq).2.1
                refine ihEL _ _ ?_
                simp only [setFlag_input, setFlag_pos, next_input, next_pos, hpk] at hal hap ⊢
                simp at hap
                omega
              next e heq => simp
              next heq =>
                refine absurd heq (ihT _ ?_)
                simp [setFlag_input, setFlag_pos, next_input, next_pos, hpk]
                omega
          · simp
      next hpk => simp
    · -- parse_term
      simp only [parse_term]
      split
      next value s1 heq =>
        have hal := ((grammar_advances varMap fuel).2.2.2.2 _ _ _ heq).len_eq
        have hap := ((grammar_advances varMap fuel).2.2.2.2 _ _ _ heq).2.1
        exact ihTL _ _ (by omega)
      next e heq => simp
      next heq =>
        exact absurd heq (ihF _ (by omega))
    · -- parse_term_loop
      simp only [parse_term_loop]
      split
      next c hpk =>
        have hAl := (advances_skip_whitespace s).len_eq
        have hAp := (advances_skip_whitespace s).2.1
        have hlt := peek_some_lt hpk
        split
        · split
          · simp
          · split
            next t s2 heq =>
              have hal := ((grammar_advances varMap fuel).2.2.2.2 _ _ _ heq).len_eq
              have hap := ((grammar_advances varMap fuel).2.2.2.2 _ _ _ heq).2.1
              refine ihTL _ _ ?_
              simp only [setFlag_input, setFlag_pos, next_input, next_pos, hpk] at hal hap ⊢
              simp at hap
              omega
            next e heq => simp
            next heq =>
              refine absurd heq (ihF _ ?_)
              simp [setFlag_input, setFlag_pos, next_input, next_pos, hpk]
              omega
        · simp
      next hpk => simp
    · -- parse_factor
      simp only [parse_factor]
      split
      next c hpk =>
        have hAl := (advances_skip_whitespace s).len_eq
        have hAp := (advances_skip_whitespace s).2.1
        have hlt := peek_some_lt hpk
        split
        · -- parenthesis
          split
          next value s2 heq =>
            split
            · simp
            · simp
          next e heq => simp
          next heq =>
            refine absurd heq (ihE _ ?_)
            simp [next_input, next_pos, hpk]
            omega
        · split
          · -- unary minus
            split
            · simp
            · split
              next v2 s2 heq => simp
              next e heq => simp
              next heq =>
                refine absurd heq (ihF _ ?_)
                simp [next_input, next_pos, setFlag_input, setFlag_pos, setFlag_peek, hpk]
                omega
          · split
            · -- unary plus
              split
              · simp
              · refine ihF _ ?_
                simp [next_input, next_pos, setFlag_input, setFlag_pos, setFlag_peek, hpk]
                omega
            · split
              · -- integer literal
                simp only [parse_integer_literal]
                split
                · simp
                · split
                  · simp
                  · simp
              · split
                · -- identifier
                  simp only [parse_identifier]
                  split
                  · simp
                  · simp
                  · simp
                · simp
      next hpk => simp

theorem parse_string_literal_ne_fuelOut (s : ExprParser) :
    parse_string_literal s ≠ PRes.fuelOut := by
  simp only [parse_string_literal]
  split <;> simp

theorem parse_no_fuelOut (varMap : String → Option Value) (fuel : Nat) (s : ExprParser)
    (h : 5 * (s.input.length - s.pos) + 5 ≤ fuel) :
    parse varMap fuel s ≠ PRes.fuelOut := by
  have hAl := (advances_skip_whitespace s).len_eq
  have hAp := (advances_skip_whitespace s).2.1
  have hE : parse_expression varMap fuel (skip_whitespace s) ≠ PRes.fuelOut :=
    (grammar_fuel varMap fuel).1 _ (by omega)
  simp only [parse]
  by_cases hq : peek (skip_whitespace s) = some '"'
  · rw [if_pos hq]
    cases hsl : parse_string_literal (skip_whitespace s) with
    | ok v s1 =>
      simp only []
      split <;> simp
    | err e => simp
    | fuelOut => exact absurd hsl (parse_string_literal_ne_fuelOut _)
  · rw [if_neg hq]
    cases hr : parse_expression varMap fuel (skip_whitespace s) with
    | ok n s1 =>
      simp only []
      split <;> simp
    | err e => simp
    | fuelOut => exact absurd hr hE

theorem parse_ok_exhausts {varMap : String → Option Value} {fuel : Nat} {s : ExprParser}
    {v : Value} {s' : ExprParser} (h : parse varMap fuel s = PRes.ok v s') :
    Advances s s' ∧ s'.input.length ≤ s'.pos := by
  simp only [parse] at h
  by_cases hq : peek (skip_whitespace s) = some '"'
  · rw [if_pos hq] at h
    cases hsl : parse_string_literal (skip_whitespace s) with
    | ok w s1 =>
      rw [hsl] at h
      simp only [] at h
      split at h
      · cases h
      · cases h
        refine ⟨((advances_skip_whitespace s).trans
          (advances_parse_string_literal hsl)).trans (advances_skip_whitespace _), ?_⟩
        omega
    | err e => rw [hsl] at h; cases h
    | fuelOut => rw [hsl] at h; cases h
  · rw [if_neg hq] at h
    cases hr : parse_expression varMap fuel (skip_whitespace s) with
    | ok n s1 =>
      rw [hr] at h
      simp only [] at h
      split at h
      · cases h
      · cases h
        refine ⟨((advances_skip_whitespace s).trans
          ((grammar_advances varMap fuel).1 _ _ _ hr)).trans (advances_skip_whitespace _), ?_⟩
        omega
    | err e => rw [hr] at h; cases h
    | fuelOut => rw [hr] at h; cases h

theorem char_beq_false {c d : Char} (h : c = d → False) : (c == d) = false := by
  cases hx : c == d
  · rfl
  · exact absurd (eq_of_beq hx) h

/-- A digit cannot be mistaken for whitespace, a quote, a parenthesis or a
sign, so `parse_factor` dispatches it to `parse_integer_literal`. -/
theorem digit_facts {c : Char} (h : is_ascii_digit c = true) :
    rust_is_whitespace c = false ∧ (c = '"' → False) ∧ (c == '(') = false ∧
      (c == '-') = false ∧ (c == '+') = false := by
  have hn : 48 ≤ c.toNat ∧ c.toNat ≤ 57 := by simpa [is_ascii_digit] using h
  refine ⟨?_, ?_, ?_, ?_, ?_⟩
  · simp only [rust_is_whitespace, decide_eq_false_iff_not]
    omega
  · intro he
    subst he
    exact absurd h (by decide)
  · exact char_beq_false fun he => by subst he; exact absurd h (by decide)
  · exact char_beq_false fun he => by subst he; exact absurd h (by decide)
  · exact char_beq_false fun he => by subst he; exact absurd h (by decide)

/-- A letter or underscore cannot be mistaken for whitespace, a quote, a
parenthesis, a sign or a digit, so `parse_factor` dispatches it to
`parse_identifier`. -/
theorem ident_start_facts {c : Char} (h : (is_ascii_alphabetic c || c == '_') = true) :
    rust_is_whitespace c = false ∧ (c = '"' → False) ∧ (c == '(') = false ∧
      (c == '-') = false ∧ (c == '+') = false ∧ is_ascii_digit c = false := by
  cases hx : c == '_' with
  | true =>
    have := eq_of_beq hx
    subst this
    exact ⟨by decide, by decide, by decide, by decide, by decide, by decide⟩
  | false =>
    rw [hx, Bool.or_false] at h
    have hn : (65 ≤ c.toNat ∧ c.toNat ≤ 90) ∨ (97 ≤ c.toNat ∧ c.toNat ≤ 122) := by
      simpa [is_ascii_alphabetic] using h
    refine ⟨?_, ?_, ?_, ?_, ?_, ?_⟩
    · simp only [rust_is_whitespace, decide_eq_false_iff_not]
      omega
    · intro he
      subst he
      exact absurd h (by decide)
    · exact char_beq_false fun he => by subst he; exact absurd h (by decide)
    · exact char_beq_false fun he => by subst he; exact absurd h (by decide)
    · exact char_beq_false fun he => by subst he; exact absurd h (by decide)
    · simp only [is_ascii_digit, decide_eq_false_iff_not]
      omega

theorem alnum_or_underscore_of_start {c : Char}
    (h : (is_ascii_alphabetic c || c == '_') = true) :
    (is_ascii_alphanumeric c || c == '_') = true := by
  cases hx : c == '_' with
  | true => simp [hx]
  | false =>
    rw [hx, Bool.or_false] at h
    simp [is_ascii_alphanumeric, h, hx]

theorem skip_whitespace_eq_self {s : ExprParser} {c : Char} (h : peek s = some c)
    (hw : rust_is_whitespace c = false) : skip_whitespace s = s := by
  obtain ⟨input, pos, flag⟩ := s
  have hd : (input.drop pos).head? = some c := by
    rw [List.head?_drop, ← List.get?_eq_getElem?]
    exact h
  simp only [skip_whitespace, ExprParser.mk.injEq, and_true, true_and]
  cases hdrop : input.drop pos with
  | nil => rw [hdrop] at hd; cases hd
  | cons a l =>
    rw [hdrop] at hd
    have : a = c := by simpa using hd
    subst this
    rw [List.takeWhile_cons, hw]
    simp

theorem skip_whitespace_at_end {s : ExprParser} (h : s.input.length ≤ s.pos) :
    skip_whitespace s = s := by
  obtain ⟨input, pos, flag⟩ := s
  simp only at h
  simp only [skip_whitespace, ExprParser.mk.injEq, and_true, true_and]
  rw [List.drop_eq_nil_of_le h]
  simp

theorem parse_term_loop_at_end (varMap : String → Option Value) (fuel : Nat) (v : Int)
    {s : ExprParser} (h : s.input.length ≤ s.pos) :
    parse_term_loop varMap (fuel + 1) v s = PRes.ok v s := by
  simp only [parse_term_loop]
  rw [skip_whitespace_at_end h, peek_none_of_le h]

theorem parse_expression_loop_at_end (varMap : String → Option Value) (fuel : Nat) (v : Int)
    {s : ExprParser} (h : s.input.length ≤ s.pos) :
    parse_expression_loop varMap (fuel + 1) v s = PRes.ok v s := by
  simp only [parse_expression_loop]
  rw [skip_whitespace_at_end h, peek_none_of_le h]

/-- `parse_factor` on a digit: the whitespace skip is a no-op, the three
operator branches are skipped, and the literal parser is entered with the
operator flag cleared. -/
theorem parse_factor_digit {varMap : String → Option Value} {fuel : Nat} {s : ExprParser}
    {c : Char} (hss : skip_whitespace s = s) (hpk : peek s = some c)
    (hc : is_ascii_digit c = true) :
    parse_factor varMap (fuel + 1) s =
      parse_integer_literal { s with lastTokenWasOperator := false } := by
  obtain ⟨-, -, h3, h4, h5⟩ := digit_facts hc
  simp only [parse_factor, hss, hpk]
  simp [h3, h4, h5, hc]

/-- `parse_factor` on a letter or underscore: the identifier parser is
entered with the operator flag cleared. -/
theorem parse_factor_ident {varMap : String → Option Value} {fuel : Nat} {s : ExprParser}
    {c : Char} (hss : skip_whitespace s = s) (hpk : peek s = some c)
    (hc : (is_ascii_alphabetic c || c == '_') = true) :
    parse_factor varMap (fuel + 1) s =
      parse_identifier varMap { s with lastTokenWasOperator := false } := by
  obtain ⟨-, -, h3, h4, h5, h6⟩ := ident_start_facts hc
  simp only [parse_factor, hss, hpk]
  simp [h3, h4, h5, h6, hc]

/-- `parse_identifier` on an input that is one whole identifier: the name is
the whole input and the three lookup outcomes are exactly those of
src/exp_parser.rs lines 173-180. -/
theorem parse_identifier_whole (varMap : String → Option Value) {c : Char} {t : List Char}
    (hc : (is_ascii_alphanumeric c || c == '_') = true)
    (ht : ∀ d ∈ t, (is_ascii_alphanumeric d || d == '_') = true) :
    parse_identifier varMap ⟨c :: t, 0, false⟩ =
      match varMap (String.mk (c :: t)) with
      | some (Value.int n) => PRes.ok n ⟨c :: t, (c :: t).length, false⟩
      | some (Value.str _) => PRes.err (PError.stringVarInArith (String.mk (c :: t)))
      | none => PRes.err (PError.varNotDefined (String.mk (c :: t))) := by
  have hall : ∀ d ∈ c :: t, (is_ascii_alphanumeric d || d == '_') = true := by
    intro d hd
    rcases List.mem_cons.1 hd with rfl | hdt
    · exact hc
    · exact ht d hdt
  have htw : List.takeWhile (fun d => is_ascii_alphanumeric d || d == '_') (c :: t) = c :: t :=
    List.takeWhile_eq_self_iff.2 hall
  simp only [parse_identifier, List.drop_zero, htw]
  cases hv : varMap (String.mk (c :: t)) with
  | none => simp
  | some val => cases val <;> simp

/-- If the first factor of the input fails, the whole evaluation reports
that failure: the error propagates through `parse_term`, `parse_expression`
and `parse` unchanged (the `?` operator in src/exp_parser.rs). -/
theorem evaluate_err_of_factor {e : String} {varMap : String → Option Value} {er : PError}
    (hss : skip_whitespace (ExprParser.new e) = ExprParser.new e)
    (hq : ¬ peek (ExprParser.new e) = some '"')
    (hfac : parse_factor varMap (5 * e.data.length + 3 + 1) (ExprParser.new e) =
      PRes.err er) :
    evaluate e varMap = some (Except.error er) := by
  have hterm : parse_term varMap (5 * e.data.length + 4 + 1) (ExprParser.new e) =
      PRes.err er := by
    simp only [parse_term]
    rw [show 5 * e.data.length + 4 = 5 * e.data.length + 3 + 1 from rfl, hfac]
  have hexpr : parse_expression varMap (5 * e.data.length + 5 + 1) (ExprParser.new e) =
      PRes.err er := by
    simp only [parse_expression]
    rw [show 5 * e.data.length + 5 = 5 * e.data.length + 4 + 1 from rfl, hterm]
  have hparse : parse varMap (5 * e.data.length + 5 + 1) (ExprParser.new e) =
      PRes.err er := by
    simp only [parse, hss, if_neg hq]
    rw [hexpr]
  simp only [evaluate]
  rw [show 5 * e.data.length + 6 = 5 * e.data.length + 5 + 1 from rfl, hparse]

/-- If the first factor consumes the whole input and yields an integer, the
whole evaluation succeeds with that integer: both operator loops stop at
end of input and the trailing-input check passes. -/
theorem evaluate_ok_int_of_factor {e : String} {varMap : String → Option Value} {n : Int}
    (hss : skip_whitespace (ExprParser.new e) = ExprParser.new e)
    (hq : ¬ peek (ExprParser.new e) = some '"')
    (hfac : parse_factor varMap (5 * e.data.length + 3 + 1) (ExprParser.new e) =
      PRes.ok n ⟨e.data, e.data.length, false⟩) :
    evaluate e varMap = some (Except.ok (Value.int n)) := by
  have hend : (⟨e.data, e.data.length, false⟩ : ExprParser).input.length ≤
      (⟨e.data, e.data.length, false⟩ : ExprParser).pos := Nat.le_refl _
  have hterm : parse_term varMap (5 * e.data.length + 4 + 1) (ExprParser.new e) =
      PRes.ok n ⟨e.data, e.data.length, false⟩ := by
    simp only [parse_term]
    rw [show 5 * e.data.length + 4 = 5 * e.data.length + 3 + 1 from rfl, hfac]
    exact parse_term_loop_at_end varMap _ n hend
  have hexpr : parse_expression varMap (5 * e.data.length + 5 + 1) (ExprParser.new e) =
      PRes.ok n ⟨e.data, e.data.length, false⟩ := by
    simp only [parse_expression]
    rw [show 5 * e.data.length + 5 = 5 * e.data.length + 4 + 1 from rfl, hterm]
    exact parse_expression_loop_at_end varMap _ n hend
  have hparse : parse varMap (5 * e.data.length + 5 + 1) (ExprParser.new e) =
      PRes.ok (Value.int n) ⟨e.data, e.data.length, false⟩ := by
    simp only [parse, hss, if_neg hq]
    rw [hexpr]
    show (if (skip_whitespace ⟨e.data, e.data.length, false⟩).pos <
        (skip_whitespace ⟨e.data, e.data.length, false⟩).input.length then
      PRes.err PError.trailingChars
    else PRes.ok (Value.int n) (skip_whitespace ⟨e.data, e.data.length, false⟩)) =
      PRes.ok (Value.int n) ⟨e.data, e.data.length, false⟩
    rw [skip_whitespace_at_end hend]
    simp
  simp only [evaluate]
  rw [show 5 * e.data.length + 6 = 5 * e.data.length + 5 + 1 from rfl, hparse]

example : evaluate "(1+2)*3" (fun _ => none) = some (Except.ok (Value.int 9)) := rfl

example : evaluate "-1" (fun _ => none) = some (Except.error PError.multipleUnaryMinus) := rfl

example : evaluate "1 - -2" (fun _ => none) = some (Except.error PError.multipleUnaryMinus) := rfl

example : evaluate "1++1" (fun _ => none) = some (Except.error PError.multipleUnaryPlus) := rfl

example : evaluate "0" (fun _ => none) = some (Except.ok (Value.int 0)) := rfl

example : evaluate "00" (fun _ => none) = some (Except.error PError.leadingZero) := rfl

example : evaluate "(1+2" (fun _ => none) = some (Except.error PError.missingCloseParen) := rfl

example :
    evaluate "a*b+1"
      (fun n => if n = "a" then some (Value.int 2)
        else if n = "b" then some (Value.int 3) else none) =
      some (Except.ok (Value.int 7)) := rfl

/-! ### Claims -/

/-- C1: the spec claims unary signs are accepted in operand position, with
`evaluate "-1"` returning `Integer(-1)` and `evaluate "1 - -2"` returning
`Integer(3)`.  The code initializes `last_token_was_operator` to `true` and
`parse_factor` rejects a sign whenever that flag is set; the flag is set at
every operand position, so every unary sign is rejected with the
"Multiple unary operators not allowed" message even when there is only one
sign — contradicting both the spec and the wording of the message itself. -/
theorem claim_C1_unary_rejected :
    evaluate "-1" (fun _ => none) = some (Except.error PError.multipleUnaryMinus) ∧
    evaluate "1 - -2" (fun _ => none) = some (Except.error PError.multipleUnaryMinus) ∧
    evaluate "-1 + -2" (fun _ => none) = some (Except.error PError.multipleUnaryMinus) ∧
    PError.multipleUnaryMinus.kind = ErrKind.RepeatedUnaryOperator :=
  ⟨rfl, rfl, rfl, rfl⟩

/-- C2: evaluation is total — for every expression string and every
variable mapping the evaluator returns a result (a value or a typed
error); in particular the fuel bound baked into `evaluate` is never
exhausted.  Arithmetic is embedded with twos-complement wrapping
(`wrap32`), the release-build semantics of Rust `i32` operators, under
which no arithmetic step can fail. -/
theorem claim_C2_evaluate_total (e : String) (varMap : String → Option Value) :
    ∃ r : Except PError Value, evaluate e varMap = some r := by
  cases hp : parse varMap (5 * e.data.length + 6) (ExprParser.new e) with
  | ok v s' => exact ⟨Except.ok v, by unfold evaluate; rw [hp]⟩
  | err er => exact ⟨Except.error er, by unfold evaluate; rw [hp]⟩
  | fuelOut =>
    refine absurd hp (parse_no_fuelOut varMap _ _ ?_)
    show 5 * (e.data.length - 0) + 5 ≤ 5 * e.data.length + 6
    omega

/-- C3 counterexample: `evaluate "1++1"` does fail, but not with the
ConsecutiveOperator kind the claim names: the second `+` is consumed by
`parse_factor` as a unary sign while the expecting-operand flag is set, so
the reported error is "Multiple unary (+) operators not allowed", whose
kind is RepeatedUnaryOperator. -/
theorem claim_C3_counterexample :
    evaluate "1++1" (fun _ => none) = some (Except.error PError.multipleUnaryPlus) ∧
    PError.multipleUnaryPlus.kind ≠ ErrKind.ConsecutiveOperator :=
  ⟨rfl, by decide⟩

/-- C3 (amended): `evaluate "1++1"` fails with the RepeatedUnaryOperator
kind; the expression-level check does reject `+` with the
ConsecutiveOperator error whenever the expecting-operand flag is true at
the head of the `+`/`-` loop — but a successfully parsed term always
leaves the flag false, so on "1++1" it is the factor-level unary check
that fires. -/
theorem claim_C3_consecutive (varMap : String → Option Value) (fuel : Nat) (v : Int)
    (s : ExprParser) (hflag : s.lastTokenWasOperator = true)
    (hpk : peek (skip_whitespace s) = some '+') :
    evaluate "1++1" (fun _ => none) = some (Except.error PError.multipleUnaryPlus) ∧
    PError.multipleUnaryPlus.kind = ErrKind.RepeatedUnaryOperator ∧
    parse_expression_loop varMap (fuel + 1) v s = PRes.err PError.consecutivePlus := by
  refine ⟨rfl, rfl, ?_⟩
  simp only [parse_expression_loop, hpk]
  have hf : (skip_whitespace s).lastTokenWasOperator = true := hflag
  simp [hf]

theorem claim_C3_consecutive_witness :
    parse_expression_loop (fun _ => none) 1 0 ⟨['+'], 0, true⟩ =
      PRes.err PError.consecutivePlus :=
  (claim_C3_consecutive (fun _ => none) 0 0 ⟨['+'], 0, true⟩ rfl rfl).2.2

/-- C4: a successful parse leaves the cursor exactly at the input length;
and when the arithmetic-expression phase succeeds but characters survive
the trailing whitespace skip, `parse` fails with the trailing-input error
instead of succeeding. -/
theorem claim_C4_cursor (varMap : String → Option Value) (fuel : Nat) (e : String) :
    (∀ v s', parse varMap fuel (ExprParser.new e) = PRes.ok v s' →
      s'.pos = s'.input.length) ∧
    (∀ n s2, ¬ peek (skip_whitespace (ExprParser.new e)) = some '"' →
      parse_expression varMap fuel (skip_whitespace (ExprParser.new e)) = PRes.ok n s2 →
      (skip_whitespace s2).pos < (skip_whitespace s2).input.length →
      parse varMap fuel (ExprParser.new e) = PRes.err PError.trailingChars) := by
  constructor
  · intro v s' h
    obtain ⟨hadv, hle⟩ := parse_ok_exhausts h
    have hb := hadv.2.2 (Nat.zero_le _)
    omega
  · intro n s2 hq hexp hrem
    simp only [parse, if_neg hq]
    rw [hexp]
    simp [hrem]

theorem claim_C4_cursor_witness :
    (⟨"1".data, 1, false⟩ : ExprParser).pos = (⟨"1".data, 1, false⟩ : ExprParser).input.length ∧
    parse (fun _ => none) 11 (ExprParser.new "1 2") = PRes.err PError.trailingChars :=
  ⟨(claim_C4_cursor (fun _ => none) 11 "1").1 (Value.int 1) ⟨"1".data, 1, false⟩ rfl,
   (claim_C4_cursor (fun _ => none) 11 "1 2").2 1 ⟨"1 2".data, 2, false⟩
     (by decide) rfl (by decide)⟩

/-- C5: the evaluator respects standard precedence and associativity:
parenthesized groups first, `*` before `+`/`-`, and left association of
`-`, witnessed on the examples of the spec plus one precedence and one
associativity discriminator. -/
theorem claim_C5_precedence :
    evaluate "(1+2)*3" (fun _ => none) = some (Except.ok (Value.int 9)) ∧
    evaluate "a*b+1" (fun n => if n = "a" then some (Value.int 2)
      else if n = "b" then some (Value.int 3) else none) =
      some (Except.ok (Value.int 7)) ∧
    evaluate "1+2*3" (fun _ => none) = some (Except.ok (Value.int 7)) ∧
    evaluate "1-2-3" (fun _ => none) = some (Except.ok (Value.int (-4))) :=
  ⟨rfl, rfl, rfl, rfl⟩

/-- C6: an integer literal (here: the whole input) whose digit string
denotes a value above `i32::MAX` makes evaluation fail with the
number-overflow error — the generic "Invalid number format" message of
`str::parse::<i32>`, which section 7 maps to `NumberOverflow`.  The
literal must not start with `0`, because the leading-zero check of
section 4.2.5 runs before conversion. -/
theorem claim_C6_number_overflow (e : String) (varMap : String → Option Value)
    (c : Char) (t : List Char) (he : e.data = c :: t)
    (hc : is_ascii_digit c = true) (hc0 : ¬ c = '0')
    (ht : ∀ d ∈ t, is_ascii_digit d = true)
    (hbig : 2147483647 < digitsToNat (c :: t)) :
    evaluate e varMap = some (Except.error PError.invalidNumberFormat) := by
  have hpk : peek (ExprParser.new e) = some c := by
    simp [peek, ExprParser.new, he]
  have hss : skip_whitespace (ExprParser.new e) = ExprParser.new e :=
    skip_whitespace_eq_self hpk (digit_facts hc).1
  have hq : ¬ peek (ExprParser.new e) = some '"' := by
    rw [hpk]
    intro hx
    exact (digit_facts hc).2.1 (Option.some.inj hx)
  apply evaluate_err_of_factor hss hq
  rw [parse_factor_digit hss hpk hc]
  show parse_integer_literal ⟨e.data, 0, false⟩ = PRes.err PError.invalidNumberFormat
  rw [he]
  have htw : List.takeWhile is_ascii_digit (c :: t) = c :: t := by
    refine List.takeWhile_eq_self_iff.2 ?_
    intro d hd
    rcases List.mem_cons.1 hd with rfl | hdt
    · exact hc
    · exact ht d hdt
  simp only [parse_integer_literal, List.drop_zero, htw]
  rw [if_neg (fun hand => hc0 (Option.some.inj hand.2)), if_pos (Or.inr hbig)]

theorem claim_C6_number_overflow_witness :
    evaluate "2147483648" (fun _ => none) =
      some (Except.error PError.invalidNumberFormat) :=
  claim_C6_number_overflow "2147483648" (fun _ => none) '2'
    ['1', '4', '7', '4', '8', '3', '6', '4', '8'] rfl (by decide) (by decide)
    (by decide) (by decide)

/-- C7: identifier lookup has exactly three outcomes.  When the input is a
single identifier, evaluation yields the bound integer, fails with the
type-mismatch error on a bound text value, and fails with the
undefined-variable error when the name is absent; the two concrete spec
scenarios are included. -/
theorem claim_C7_identifier_lookup :
    (∀ (e : String) (varMap : String → Option Value) (c : Char) (t : List Char),
      e.data = c :: t → (is_ascii_alphabetic c || c == '_') = true →
      (∀ d ∈ t, (is_ascii_alphanumeric d || d == '_') = true) →
      evaluate e varMap =
        some (match varMap e with
          | some (Value.int n) => Except.ok (Value.int n)
          | some (Value.str _) => Except.error (PError.stringVarInArith e)
          | none => Except.error (PError.varNotDefined e))) ∧
    evaluate "s+1" (fun n => if n = "s" then some (Value.str "hi") else none) =
      some (Except.error (PError.stringVarInArith "s")) ∧
    evaluate "z" (fun _ => none) = some (Except.error (PError.varNotDefined "z")) := by
  refine ⟨?_, rfl, rfl⟩
  intro e varMap c t he hc ht
  have hpk : peek (ExprParser.new e) = some c := by
    simp [peek, ExprParser.new, he]
  have hss : skip_whitespace (ExprParser.new e) = ExprParser.new e :=
    skip_whitespace_eq_self hpk (ident_start_facts hc).1
  have hq : ¬ peek (ExprParser.new e) = some '"' := by
    rw [hpk]
    intro hx
    exact (ident_start_facts hc).2.1 (Option.some.inj hx)
  have hident := parse_identifier_whole varMap (alnum_or_underscore_of_start hc) ht
  have hmk : String.mk (c :: t) = e := by rw [← he]
  rw [hmk] at hident
  cases hv : varMap e with
  | none =>
    rw [hv] at hident
    apply evaluate_err_of_factor hss hq
    rw [parse_factor_ident hss hpk hc]
    show parse_identifier varMap ⟨e.data, 0, false⟩ = _
    rw [he]
    exact hident
  | some val =>
    cases val with
    | int n =>
      rw [hv] at hident
      apply evaluate_ok_int_of_factor hss hq
      rw [parse_factor_ident hss hpk hc]
      show parse_identifier varMap ⟨e.data, 0, false⟩ =
        PRes.ok n ⟨e.data, e.data.length, false⟩
      rw [he]
      exact hident
    | str a =>
      rw [hv] at hident
      apply evaluate_err_of_factor hss hq
      rw [parse_factor_ident hss hpk hc]
      show parse_identifier varMap ⟨e.data, 0, false⟩ = _
      rw [he]
      exact hident

theorem claim_C7_identifier_lookup_witness :
    evaluate "x" (fun n => if n = "x" then some (Value.int 5) else none) =
      some (Except.ok (Value.int 5)) :=
  claim_C7_identifier_lookup.1 "x" (fun n => if n = "x" then some (Value.int 5) else none)
    'x' [] rfl (by decide) (by intro d hd; cases hd)

/-- C8: a parenthesized group with no closing parenthesis fails with the
unmatched-parenthesis error, for every variable mapping (the evaluation of
"(1+2" never consults the mapping). -/
theorem claim_C8_unmatched_paren (varMap : String → Option Value) :
    evaluate "(1+2" varMap = some (Except.error PError.missingCloseParen) ∧
    PError.missingCloseParen.kind = ErrKind.UnmatchedParenthesis :=
  ⟨rfl, rfl⟩

/-- C9: `evaluate "0"` yields integer 0, while any input whose first two
characters are `0` followed by another digit fails with the leading-zero
error (the literal taken is the leading digit run, which then has length
greater than one and starts with `0`). -/
theorem claim_C9_leading_zero :
    evaluate "0" (fun _ => none) = some (Except.ok (Value.int 0)) ∧
    ∀ (e : String) (varMap : String → Option Value) (d : Char) (r : List Char),
      e.data = '0' :: d :: r → is_ascii_digit d = true →
      evaluate e varMap = some (Except.error PError.leadingZero) := by
  refine ⟨rfl, ?_⟩
  intro e varMap d r he hd
  have hc : is_ascii_digit '0' = true := by decide
  have hpk : peek (ExprParser.new e) = some '0' := by
    simp [peek, ExprParser.new, he]
  have hss : skip_whitespace (ExprParser.new e) = ExprParser.new e :=
    skip_whitespace_eq_self hpk (digit_facts hc).1
  have hq : ¬ peek (ExprParser.new e) = some '"' := by
    rw [hpk]
    intro hx
    exact (digit_facts hc).2.1 (Option.some.inj hx)
  apply evaluate_err_of_factor hss hq
  rw [parse_factor_digit hss hpk hc]
  show parse_integer_literal ⟨e.data, 0, false⟩ = PRes.err PError.leadingZero
  rw [he]
  have hnum : List.takeWhile is_ascii_digit ('0' :: d :: r) =
      '0' :: d :: List.takeWhile is_ascii_digit r := by
    rw [List.takeWhile_cons, if_pos hc, List.takeWhile_cons, if_pos hd]
  simp only [parse_integer_literal, List.drop_zero, hnum]
  rw [if_pos ⟨by simp, rfl⟩]

theorem claim_C9_leading_zero_witness :
    evaluate "00" (fun _ => none) = some (Except.error PError.leadingZero) ∧
    evaluate "007" (fun _ => none) = some (Except.error PError.leadingZero) :=
  ⟨claim_C9_leading_zero.2 "00" (fun _ => none) '0' [] rfl (by decide),
   claim_C9_leading_zero.2 "007" (fun _ => none) '0' ['7'] rfl (by decide)⟩

/-- C10: evaluation always terminates, with recursion depth (fuel) linear
in the input length: any fuel of at least `5 * length + 6` is enough for
`parse` never to exhaust it, on every input and variable mapping. -/
theorem claim_C10_terminates (e : String) (varMap : String → Option Value) (fuel : Nat)
    (h : 5 * e.data.length + 6 ≤ fuel) :
    parse varMap fuel (ExprParser.new e) ≠ PRes.fuelOut := by
  apply parse_no_fuelOut
  show 5 * (e.data.length - 0) + 5 ≤ fuel
  omega

theorem claim_C10_terminates_witness :
    parse (fun _ => none) 6 (ExprParser.new "") ≠ PRes.fuelOut :=
  claim_C10_terminates "" (fun _ => none) 6 (by decide)

end Tokenizer
